import Mathlib

/-!
Verification development for the `streamer` desktop-streaming server
(C sources under `src/`).  Each C function relevant to the checked
properties is shallowly embedded as an executable Lean definition that
follows the C control flow statement by statement; machine integers are
modelled as `Nat` with explicit truncation (`% 256`, `% 2^32`) exactly
where the C stores narrow the value.  External collaborators (VA-API,
the kernel, `writev`) are modelled by explicit oracle/event inputs, so
every embedded function is deterministic and computable.
-/

namespace Streamer

/-- Little-endian bytes of a 16-bit value, as stored in memory on the
little-endian targets the server runs on. -/
def le16 (n : Nat) : List Nat := [n % 256, n / 256 % 256]

/-- Little-endian bytes of a 32-bit value. -/
def le32 (n : Nat) : List Nat :=
  [n % 256, n / 256 % 256, n / 65536 % 256, n / 16777216 % 256]

/-- Read byte `i` of a byte buffer (0 when out of range, used only under
in-range side conditions established by the callers). -/
def byteAt (l : List Nat) (i : Nat) : Nat := l.getD i 0

/-- Read the 32-bit little-endian field at byte offset `i`, the way the C
code reads a `__u32` member of a struct overlaid on the buffer. -/
def le32At (l : List Nat) (i : Nat) : Nat :=
  byteAt l i + 256 * byteAt l (i + 1) + 65536 * byteAt l (i + 2) +
    16777216 * byteAt l (i + 3)

/-- Read the 16-bit little-endian field at byte offset `i` (a `__u16`
struct member). -/
def le16At (l : List Nat) (i : Nat) : Nat :=
  byteAt l i + 256 * byteAt l (i + 1)

/-! ## Buffer queue — `src/buffer_queue.c`

`struct BufferQueue` holds `items` (array of pointers), `size` and
`alloc`, protected by a mutex.  The mutex only brackets each operation
(`mtx_lock`/`mtx_unlock` around one push or one pop, no I/O inside), so
each operation is modelled as one atomic function on the queue state.
Items are modelled abstractly (`α`); `BufferQueueQueue` rejects a NULL
item in C, so enqueued items are the non-NULL values.  `realloc` and
`mtx_lock` are assumed to succeed (on their failure the C function
returns `false` leaving the queue unchanged). -/

structure BufferQueue (α : Type) where
  items : List α
  alloc : Nat
deriving Repr, DecidableEq

/-- `BufferQueueCreate`: `calloc` zeroes the struct — empty item array,
zero allocation. -/
def BufferQueueCreate (α : Type) : BufferQueue α := { items := [], alloc := 0 }

/-- `BufferQueueQueue`: if `size == alloc`, grow the storage by exactly
one slot; append the item at index `size`; increment `size`. -/
def BufferQueueQueue (q : BufferQueue α) (item : α) : Bool × BufferQueue α :=
  let alloc := if q.items.length = q.alloc then q.alloc + 1 else q.alloc
  (true, { items := q.items ++ [item], alloc := alloc })

/-- `BufferQueueDequeue`: if `size` is zero, store NULL (`none`) into
`*buffer_queue_item` and return `true` leaving the queue unchanged;
otherwise move out `items[0]` and `memmove` the remainder down. -/
def BufferQueueDequeue (q : BufferQueue α) : Bool × Option α × BufferQueue α :=
  match q.items with
  | [] => (true, none, q)
  | x :: rest => (true, some x, { items := rest, alloc := q.alloc })

/-- Enqueue a list of items in order (n successive `BufferQueueQueue` calls). -/
def bufferQueueEnqueueAll (q : BufferQueue α) (as : List α) : BufferQueue α :=
  as.foldl (fun q a => (BufferQueueQueue q a).2) q

/-- Perform `n` successive `BufferQueueDequeue` calls, collecting the
returned items (`none` = NULL) in order. -/
def bufferQueueDequeueN (q : BufferQueue α) : Nat → List (Option α) × BufferQueue α
  | 0 => ([], q)
  | n + 1 =>
    let r := BufferQueueDequeue q
    let rest := bufferQueueDequeueN r.2.2 n
    (r.2.1 :: rest.1, rest.2)

lemma bufferQueueEnqueueAll_items (q : BufferQueue α) (as : List α) :
    (bufferQueueEnqueueAll q as).items = q.items ++ as := by
  induction as generalizing q with
  | nil => simp [bufferQueueEnqueueAll]
  | cons a as ih =>
    simp [bufferQueueEnqueueAll] at ih ⊢
    rw [ih]
    simp [BufferQueueQueue]

lemma bufferQueueDequeueN_items (q : BufferQueue α) (n : Nat)
    (h : n ≤ q.items.length) :
    (bufferQueueDequeueN q n).1 = (q.items.take n).map some ∧
      (bufferQueueDequeueN q n).2.items = q.items.drop n := by
  induction n generalizing q with
  | zero => simp [bufferQueueDequeueN]
  | succ n ih =>
    match hq : q.items with
    | [] => simp [hq] at h
    | x :: rest =>
      have hr : n ≤ rest.length := by
        have := h; rw [hq] at this; simpa using this
      have := ih ({ items := rest, alloc := q.alloc } : BufferQueue α) hr
      simp [bufferQueueDequeueN, BufferQueueDequeue, hq, this.1, this.2]

/-- C6: starting from an empty `BufferQueue`, `n` enqueues of `a₁..aₙ`
followed by `n` dequeues return `a₁..aₙ` in that order (all successful,
ending with an empty queue), and a dequeue on an empty queue returns
success with a NULL item leaving the queue state unchanged. -/
theorem bufferQueue_fifo_and_empty_dequeue {α : Type} (as : List α)
    (q : BufferQueue α) (hq : q.items = []) :
    (bufferQueueDequeueN (bufferQueueEnqueueAll q as) as.length).1 = as.map some ∧
    (bufferQueueDequeueN (bufferQueueEnqueueAll q as) as.length).2.items = [] ∧
    BufferQueueDequeue q = (true, none, q) := by
  have hitems : (bufferQueueEnqueueAll q as).items = as := by
    rw [bufferQueueEnqueueAll_items, hq]; simp
  have hlen : as.length ≤ (bufferQueueEnqueueAll q as).items.length := by
    rw [hitems]
  have hd := bufferQueueDequeueN_items (bufferQueueEnqueueAll q as) as.length hlen
  refine ⟨?_, ?_, ?_⟩
  · rw [hd.1, hitems, List.take_length]
  · rw [hd.2, hitems, List.drop_length]
  · unfold BufferQueueDequeue
    split
    · rfl
    · rename_i x rest hx
      rw [hq] at hx
      cases hx

theorem bufferQueue_fifo_and_empty_dequeue_witness :
    (bufferQueueDequeueN
        (bufferQueueEnqueueAll (BufferQueueCreate Nat) [7, 8, 9])
        ([7, 8, 9] : List Nat).length).1 = ([7, 8, 9] : List Nat).map some ∧
    (bufferQueueDequeueN
        (bufferQueueEnqueueAll (BufferQueueCreate Nat) [7, 8, 9])
        ([7, 8, 9] : List Nat).length).2.items = [] ∧
    BufferQueueDequeue (BufferQueueCreate Nat) =
      (true, none, BufferQueueCreate Nat) :=
  bufferQueue_fifo_and_empty_dequeue [7, 8, 9] (BufferQueueCreate Nat) rfl

/-! ## Ring-buffer queue — `src/queue.c`

`struct Queue { void** buffer; size_t alloc; size_t size; size_t read;
size_t write; }`.  The item array is modelled as a total function
`Nat → α` (slots outside the allocation hold junk values, like the
uninitialized tail of a fresh `malloc`); `malloc` is assumed to succeed
(on failure `QueuePush` returns `false` leaving the queue unchanged). -/

structure Queue (α : Type) where
  buffer : Nat → α
  alloc : Nat
  size : Nat
  read : Nat
  write : Nat

/-- `QueuePush`: when full (`size == alloc`), allocate one more slot and
copy the wrapped contents to start at index 0 (`memcpy` of the tail
`buffer[read..alloc)` followed by the head `buffer[0..read)`), resetting
`read = 0`, `write = size`; then store the item at `write`, advance
`write` modulo the (new) allocation and increment `size`. -/
def QueuePush (q : Queue α) (item : α) : Bool × Queue α :=
  let q' :=
    if q.size = q.alloc then
      let tail_size := q.size - q.read
      let head_size := q.read
      let buffer := fun i =>
        if i < tail_size then q.buffer (q.read + i)
        else if i < tail_size + head_size then q.buffer (i - tail_size)
        else q.buffer i
      { buffer := buffer, alloc := q.alloc + 1, size := q.size,
        read := 0, write := q.size }
    else q
  (true, { q' with buffer := Function.update q'.buffer q'.write item,
                   write := (q'.write + 1) % q'.alloc,
                   size := q'.size + 1 })

/-- `QueuePop`: on an empty queue return `false` without touching
anything; otherwise return `buffer[read]`, advance `read` modulo the
allocation and decrement `size`. -/
def QueuePop (q : Queue α) : Bool × Option α × Queue α :=
  if q.size = 0 then (false, none, q)
  else (true, some (q.buffer q.read),
        { q with read := (q.read + 1) % q.alloc, size := q.size - 1 })

/-- The ring-buffer representation invariant of `struct Queue`. -/
def QueueInv (q : Queue α) : Prop :=
  q.size ≤ q.alloc ∧
    (0 < q.alloc →
      q.read < q.alloc ∧ q.write < q.alloc ∧
        q.write = (q.read + q.size) % q.alloc)

/-- The stored items in insertion order: slots `read, read+1, ...,
read+size-1` taken modulo `alloc`. -/
def queueAbs (q : Queue α) : List α :=
  (List.range q.size).map fun i => q.buffer ((q.read + i) % q.alloc)

lemma mod_add_left_mod (a b n : Nat) : (a % n + b) % n = (a + b) % n :=
  Nat.ModEq.add_right b (Nat.mod_modEq a n)

lemma queuePush_inv_abs (q : Queue α) (x : α) (h : QueueInv q) :
    QueueInv (QueuePush q x).2 ∧ queueAbs (QueuePush q x).2 = queueAbs q ++ [x] := by
  obtain ⟨hsa, hrest⟩ := h
  by_cases hfull : q.size = q.alloc
  · -- grow path: one more slot, contents unwrapped to start at index 0
    have hres :
        (QueuePush q x).2 =
          { buffer :=
              Function.update
                (fun i =>
                  if i < q.size - q.read then q.buffer (q.read + i)
                  else if i < q.size - q.read + q.read then
                    q.buffer (i - (q.size - q.read))
                  else q.buffer i)
                q.size x,
            alloc := q.alloc + 1, size := q.size + 1, read := 0,
            write := (q.size + 1) % (q.alloc + 1) } := by
      simp [QueuePush, hfull]
    constructor
    · refine ⟨?_, fun _ => ⟨?_, ?_, ?_⟩⟩ <;> rw [hres]
      · simpa using Nat.succ_le_succ hsa
      · exact Nat.succ_pos _
      · exact Nat.mod_lt _ (Nat.succ_pos _)
      · simp
    · rw [hres]
      unfold queueAbs
      simp only [List.range_succ, List.map_append, List.map_cons, List.map_nil]
      congr 1
      · apply List.map_congr_left
        intro i hi
        rw [List.mem_range] at hi
        have hi' : i < q.alloc := hfull ▸ hi
        have hmod : (0 + i) % (q.alloc + 1) = i := by
          rw [Nat.zero_add, Nat.mod_eq_of_lt (Nat.lt_succ_of_lt hi')]
        rw [hmod, Function.update_noteq (by omega)]
        by_cases hcase : i < q.size - q.read
        · rw [if_pos hcase]
          have : (q.read + i) % q.alloc = q.read + i :=
            Nat.mod_eq_of_lt (by omega)
          rw [this]
        · rw [if_neg hcase]
          have hread : q.read < q.alloc := (hrest (by omega)).1
          have h2 : i < q.size - q.read + q.read := by omega
          rw [if_pos h2]
          have : (q.read + i) % q.alloc = (q.read + i - q.alloc) % q.alloc :=
            Nat.mod_eq_sub_mod (by omega)
          rw [this, Nat.mod_eq_of_lt (by omega)]
          congr 1
          omega
      · have : (0 + q.size) % (q.alloc + 1) = q.size := by
          rw [Nat.zero_add, Nat.mod_eq_of_lt (by omega)]
        rw [this, Function.update_same]
  · -- in-place path: store at `write`, advance it modulo `alloc`
    have hlt : q.size < q.alloc := lt_of_le_of_ne hsa hfull
    have halloc : 0 < q.alloc := lt_of_le_of_lt (Nat.zero_le _) hlt
    obtain ⟨hr, hw, hwe⟩ := hrest halloc
    have hres :
        (QueuePush q x).2 =
          { q with buffer := Function.update q.buffer q.write x,
                   write := (q.write + 1) % q.alloc, size := q.size + 1 } := by
      simp [QueuePush, hfull]
    constructor
    · refine ⟨?_, fun _ => ⟨?_, ?_, ?_⟩⟩ <;> rw [hres]
      · exact hlt
      · exact hr
      · exact Nat.mod_lt _ halloc
      · show (q.write + 1) % q.alloc = (q.read + (q.size + 1)) % q.alloc
        rw [hwe, mod_add_left_mod, Nat.add_assoc]
    · rw [hres]
      unfold queueAbs
      simp only [List.range_succ, List.map_append, List.map_cons, List.map_nil]
      congr 1
      · apply List.map_congr_left
        intro i hi
        rw [List.mem_range] at hi
        apply Function.update_noteq
        intro heq
        have hmeq : q.read + i ≡ q.read + q.size [MOD q.alloc] := by
          have : (q.read + i) % q.alloc = (q.read + q.size) % q.alloc := by
            rw [heq, hwe]
          exact this
        have hi' : i ≡ q.size [MOD q.alloc] := Nat.ModEq.add_left_cancel' _ hmeq
        have : i = q.size := by
          have h1 : i % q.alloc = i := Nat.mod_eq_of_lt (by omega)
          have h2 : q.size % q.alloc = q.size := Nat.mod_eq_of_lt hlt
          have := hi'
          unfold Nat.ModEq at this
          omega
        omega
      · rw [← hwe, Function.update_same]

lemma queuePop_inv_abs (q : Queue α) (h : QueueInv q) :
    QueueInv (QueuePop q).2.2 ∧
    (q.size = 0 → QueuePop q = (false, none, q)) ∧
    (0 < q.size →
      (QueuePop q).1 = true ∧
      (QueuePop q).2.1 = (queueAbs q).head? ∧
      queueAbs (QueuePop q).2.2 = (queueAbs q).tail) := by
  obtain ⟨hsa, hrest⟩ := h
  by_cases hz : q.size = 0
  · refine ⟨?_, fun _ => by simp [QueuePop, hz], fun hpos => absurd hz (by omega)⟩
    simp only [QueuePop, hz, if_pos rfl]
    exact ⟨hsa, hrest⟩
  · have hpos : 0 < q.size := Nat.pos_of_ne_zero hz
    have halloc : 0 < q.alloc := lt_of_lt_of_le hpos hsa
    obtain ⟨hr, hw, hwe⟩ := hrest halloc
    have hres :
        QueuePop q =
          (true, some (q.buffer q.read),
            { q with read := (q.read + 1) % q.alloc, size := q.size - 1 }) := by
      simp [QueuePop, hz]
    obtain ⟨m, hm⟩ : ∃ m, q.size = m + 1 := ⟨q.size - 1, by omega⟩
    have habs :
        queueAbs q =
          q.buffer (q.read % q.alloc) ::
            (List.range m).map
              (fun i => q.buffer ((q.read + (i + 1)) % q.alloc)) := by
      unfold queueAbs
      rw [hm, List.range_succ_eq_map]
      simp [Function.comp]
    refine ⟨⟨?_, fun _ => ⟨?_, ?_, ?_⟩⟩, fun h0 => absurd h0 hz, fun _ => ⟨?_, ?_, ?_⟩⟩
    · rw [hres]; exact le_trans (Nat.sub_le _ _) hsa
    · rw [hres]; exact Nat.mod_lt _ halloc
    · rw [hres]; exact hw
    · rw [hres]
      show q.write = ((q.read + 1) % q.alloc + (q.size - 1)) % q.alloc
      rw [hwe, mod_add_left_mod]
      congr 1
      omega
    · rw [hres]
    · rw [hres, habs]
      simp [Nat.mod_eq_of_lt hr]
    · rw [hres, habs]
      unfold queueAbs
      simp only [hm, Nat.add_sub_cancel, List.tail_cons]
      apply List.map_congr_left
      intro i hi
      congr 1
      rw [mod_add_left_mod]
      congr 1
      omega

/-- C10: under the ring-buffer invariant of `struct Queue` (`size ≤
alloc`; when `alloc > 0`: `read, write < alloc` and `write = (read +
size) mod alloc`, the stored items being slots `read..read+size-1` mod
`alloc` in insertion order, per `queueAbs`), `QueuePush` preserves the
invariant — including the grow-by-one reallocation that unwraps the
contents to index 0 — and appends the item to the abstract contents;
`QueuePop` preserves the invariant, returns the front of the abstract
contents (hence items come out in push order), and on an empty queue
returns `false` leaving the queue unchanged. -/
theorem queue_ring_invariant_fifo (q : Queue α) (x : α) (h : QueueInv q) :
    ((QueuePush q x).1 = true ∧
      QueueInv (QueuePush q x).2 ∧
      queueAbs (QueuePush q x).2 = queueAbs q ++ [x]) ∧
    (QueueInv (QueuePop q).2.2 ∧
      (q.size = 0 → QueuePop q = (false, none, q)) ∧
      (0 < q.size →
        (QueuePop q).1 = true ∧
        (QueuePop q).2.1 = (queueAbs q).head? ∧
        queueAbs (QueuePop q).2.2 = (queueAbs q).tail)) := by
  have hp := queuePush_inv_abs q x h
  exact ⟨⟨rfl, hp.1, hp.2⟩, queuePop_inv_abs q h⟩

/-- A concrete well-formed ring-queue state used to instantiate theorems. -/
def demoQueue : Queue Nat :=
  { buffer := fun _ => 0, alloc := 2, size := 1, read := 1, write := 0 }

theorem queue_ring_invariant_fifo_witness :
    ((QueuePush demoQueue 5).1 = true ∧
      QueueInv (QueuePush demoQueue 5).2 ∧
      queueAbs (QueuePush demoQueue 5).2 = queueAbs demoQueue ++ [5]) ∧
    (QueueInv (QueuePop demoQueue).2.2 ∧
      (demoQueue.size = 0 → QueuePop demoQueue = (false, none, demoQueue)) ∧
      (0 < demoQueue.size →
        (QueuePop demoQueue).1 = true ∧
        (QueuePop demoQueue).2.1 = (queueAbs demoQueue).head? ∧
        queueAbs (QueuePop demoQueue).2.2 = (queueAbs demoQueue).tail)) :=
  queue_ring_invariant_fifo demoQueue 5
    ⟨by simp [demoQueue], fun _ => ⟨by simp [demoQueue], by simp [demoQueue],
      by simp [demoQueue]⟩⟩

/-! ## Vectored draining — `DrainBuffers` in `src/proto.c` and `src/encode.c`

`src/proto.c` and `src/encode.c` contain byte-identical copies of
`static bool DrainBuffers(int fd, struct iovec* iovec, int count)`; one
embedding covers both.  The kernel side of each `writev` call is an
oracle event: fail with `EINTR`, fail with another errno, or transfer
`n` bytes.  A `writev` transferring `n` bytes consumes the first `n`
bytes of the iovec concatenation; the C advance loop then walks the
iovec array subtracting `delta = MIN(result, iov_len)` per entry. -/

/-- One `writev` outcome. `error` carries an errno other than `EINTR`
(the `EINTR` case is the separate constructor). -/
inductive WritevEvent where
  | eintr : WritevEvent
  | error : Nat → WritevEvent
  | wrote : Nat → WritevEvent
deriving Repr, DecidableEq

/-- The per-iovec advance loop of `DrainBuffers`: for each entry,
`delta = MIN(result, iov_len)`; advance the base, shrink the length,
subtract `delta` from `result`.  Returns the advanced iovec array and
the leftover `result`. -/
def advanceIovecs : List (List Nat) → Nat → List (List Nat) × Nat
  | [], result => ([], result)
  | iov :: rest, result =>
    let delta := min result iov.length
    let r := advanceIovecs rest (result - delta)
    (iov.drop delta :: r.1, r.2)

/-- What the `DrainBuffers` loop does: `incomplete` is a model artifact
for an exhausted event list (the C loop would issue another `writev`);
`success`/`failure` carry the bytes actually transferred so far. -/
inductive DrainOutcome where
  | success : List Nat → DrainOutcome
  | failure : List Nat → DrainOutcome
  | incomplete : List Nat → DrainOutcome
deriving Repr, DecidableEq

/-- `DrainBuffers(fd, iovec, count)` from `src/proto.c` / `src/encode.c`:
loop calling `writev`; on `EINTR` retry; on another error return
`false`; otherwise advance the iovecs by the transferred count and
return `true` when the leftover `result` is zero. -/
def DrainBuffers : List WritevEvent → List (List Nat) → List Nat → DrainOutcome
  | [], _, written => .incomplete written
  | .eintr :: evs, iovecs, written => DrainBuffers evs iovecs written
  | .error _ :: _, _, written => .failure written
  | .wrote n :: evs, iovecs, written =>
    let written' := written ++ (iovecs.flatten.take n)
    let r := advanceIovecs iovecs n
    if r.2 = 0 then .success written' else DrainBuffers evs r.1 written'

/-- C5: evaluation of `DrainBuffers` at a concrete partial `writev`.
With an 8-byte header iovec and a 4-byte payload iovec (12 bytes total),
a single `writev` that transfers 6 bytes makes the advance loop consume
all of `result`, so the `if (!result) return true` check fires:
the function returns `true` having transferred only 6 of the 12 bytes
and never retries — the remaining bytes are lost. -/
theorem drainBuffers_partial_write_returns_true :
    DrainBuffers [.wrote 6] [[1, 2, 3, 4, 5, 6, 7, 8], [9, 10, 11, 12]] [] =
      .success [1, 2, 3, 4, 5, 6] ∧
    ([1, 2, 3, 4, 5, 6] : List Nat).length ≠
      ([[1, 2, 3, 4, 5, 6, 7, 8], [9, 10, 11, 12]] : List (List Nat)).flatten.length := by
  decide

/-! ## Wire framing — `src/proto.c`, `src/main.c` -/

/-- Modelled from the spec: the wire-frame header `struct Proto
{ uint32_t size; uint8_t type; uint8_t flags; uint16_t latency; }` used
by `src/proto.c` (`WriteProto`) and `src/main.c`; the header file that
declares it (with the `PROTO_TYPE_*` / `PROTO_FLAG_*` constants) is not
among the provided sources — `src/proto.h` here is a later, different
revision.  The spec fixes the 8-byte little-endian layout and the
numbering `MISC=0`, `VIDEO=1`, `AUDIO=2`, flag bit 0 = keyframe. -/
structure Proto where
  size : Nat
  type : Nat
  flags : Nat
  latency : Nat
deriving Repr, DecidableEq

/-- Modelled from the spec: wire-frame type `MISC = 0`. -/
def PROTO_TYPE_MISC : Nat := 0

/-- Modelled from the spec: wire-frame type `VIDEO = 1`. -/
def PROTO_TYPE_VIDEO : Nat := 1

/-- Modelled from the spec: wire-frame type `AUDIO = 2`. -/
def PROTO_TYPE_AUDIO : Nat := 2

/-- Modelled from the spec: keyframe flag, bit 0. -/
def PROTO_FLAG_KEYFRAME : Nat := 1

/-- The 8 bytes of a `struct Proto` as laid out in memory (little-endian
fields, no padding). -/
def protoBytes (p : Proto) : List Nat :=
  le32 p.size ++ [p.type % 256, p.flags % 256] ++ le16 p.latency

/-- `WriteProto` (`src/proto.c`): drain one iovec pair — the 8 header
bytes, then `proto->size` bytes read from `data`.  `data` models the
memory at the payload pointer, so the C reads its first `proto.size`
bytes. -/
def WriteProto (evs : List WritevEvent) (proto : Proto) (data : List Nat) :
    DrainOutcome :=
  DrainBuffers evs [protoBytes proto, data.take proto.size] []

/-- The hello frame built by `OnClientConnecting` (`src/main.c` lines
308–317): `size = strlen(audio_config) + 1`, `type = PROTO_TYPE_AUDIO`,
`flags = PROTO_FLAG_KEYFRAME`, `latency = 0`.  `audio_config` is the
NUL-free byte content of the configuration string. -/
def audioConfigHello (audio_config : List Nat) : Proto :=
  { size := audio_config.length + 1, type := PROTO_TYPE_AUDIO,
    flags := PROTO_FLAG_KEYFRAME, latency := 0 }

/-- `OnClientConnecting` passes the config string itself as payload
pointer; the memory there is the string bytes followed by its NUL
terminator. -/
def audioConfigHelloWrite (evs : List WritevEvent) (audio_config : List Nat) :
    DrainOutcome :=
  WriteProto evs (audioConfigHello audio_config) (audio_config ++ [0])

/-- The byte content of the string `"48000:FL,FR"` (ASCII). -/
def demoAudioConfig : List Nat := [52, 56, 48, 48, 48, 58, 70, 76, 44, 70, 82]

lemma advanceIovecs_snd (iovs : List (List Nat)) (n : Nat) :
    (advanceIovecs iovs n).2 = n - min n iovs.flatten.length := by
  induction iovs generalizing n with
  | nil => simp [advanceIovecs]
  | cons iov rest ih =>
    simp only [advanceIovecs, ih, List.flatten_cons, List.length_append]
    omega

lemma drainBuffers_single_full (iovs : List (List Nat)) :
    DrainBuffers [.wrote iovs.flatten.length] iovs [] = .success iovs.flatten := by
  simp [DrainBuffers, advanceIovecs_snd, List.take_length]

lemma protoBytes_length (p : Proto) : (protoBytes p).length = 8 := by
  simp [protoBytes, le32, le16]

/-- C4 counterexample: the hello frame `OnClientConnecting` sends first
has `type = PROTO_TYPE_AUDIO (2)`, not `MISC (0)` as claimed — shown at
the concrete configuration `"48000:FL,FR"`. -/
theorem hello_frame_type_not_misc :
    (audioConfigHello demoAudioConfig).type = PROTO_TYPE_AUDIO ∧
    (audioConfigHello demoAudioConfig).type ≠ PROTO_TYPE_MISC := by
  decide

/-- C4 (amended): the first message `OnClientConnecting` writes to the
client fd is a wire frame of type `AUDIO` (not `MISC`) whose payload is
the null-terminated audio-config string, with `size = strlen + 1`,
`flags = KEYFRAME`, `latency = 0`; a fully transferring `writev` puts
the 8 header bytes followed by the string and its NUL terminator on the
wire; with `--audio 48000:FL,FR` the frame has size 12. -/
theorem hello_frame_fields (cfg : List Nat) :
    (audioConfigHello cfg).size = cfg.length + 1 ∧
    (audioConfigHello cfg).type = PROTO_TYPE_AUDIO ∧
    (audioConfigHello cfg).flags = PROTO_FLAG_KEYFRAME ∧
    (audioConfigHello cfg).latency = 0 ∧
    audioConfigHelloWrite [.wrote (9 + cfg.length)] cfg =
      .success (protoBytes (audioConfigHello cfg) ++ (cfg ++ [0])) ∧
    (audioConfigHello demoAudioConfig).size = 12 := by
  refine ⟨rfl, rfl, rfl, rfl, ?_, rfl⟩
  unfold audioConfigHelloWrite WriteProto
  have htake : (cfg ++ [0]).take (audioConfigHello cfg).size = cfg ++ [0] := by
    have : (audioConfigHello cfg).size = (cfg ++ [0]).length := by
      simp [audioConfigHello]
    rw [this, List.take_length]
  rw [htake]
  have hlen :
      ([protoBytes (audioConfigHello cfg), cfg ++ [0]] : List (List Nat)).flatten.length =
        9 + cfg.length := by
    simp [protoBytes_length]
    omega
  have := drainBuffers_single_full [protoBytes (audioConfigHello cfg), cfg ++ [0]]
  rw [hlen] at this
  rw [this]
  simp

/-! ## Encoder — `src/encode.c`

`EncodeContextEncodeFrame` drives the VA-API encoder.  The driver-side
outcomes (buffer uploads, begin/render/end picture, sync, map) and the
coded-buffer content are oracle inputs in `EncodeEnv`; the client-fd
`writev` behavior reuses the `WritevEvent` oracle of `DrainBuffers`.
Only the context fields read or written on this path are carried;
`VAEncSequenceParameterBufferHEVC.intra_idr_period` and friends keep
their C names. -/

/-- `VA_INVALID_ID` (va.h). -/
def VA_INVALID_ID : Nat := 4294967295

/-- `VA_PICTURE_HEVC_INVALID` (va_hevc.h). -/
def VA_PICTURE_HEVC_INVALID : Nat := 1

/-- `VA_ENC_PACKED_HEADER_SEQUENCE` (va.h). -/
def VA_ENC_PACKED_HEADER_SEQUENCE : Nat := 1

/-- `VA_ENC_PACKED_HEADER_SLICE` (va.h). -/
def VA_ENC_PACKED_HEADER_SLICE : Nat := 4

/-- `TRAIL_R = 1` — `enum NalUnitType`, `src/hevc.h` (H.265 Table 7-1). -/
def TRAIL_R : Nat := 1

/-- `IDR_W_RADL = 19` — `enum NalUnitType`, `src/hevc.h`. -/
def IDR_W_RADL : Nat := 19

namespace SliceType

/-- `P = 1` — `enum SliceType`, `src/hevc.h` (H.265 Table 7-7). -/
def P : Nat := 1

/-- `I = 2` — `enum SliceType`, `src/hevc.h`. -/
def I : Nat := 2

end SliceType

/-- The fields of `VAPictureHEVC` the encode path reads and writes.
`pic_order_cnt` is an `int32_t` in C; every value stored on this path is
`frame_counter mod intra_idr_period`, which is nonnegative and far below
`2^31`, so `Nat` carries it exactly. -/
structure VAPictureHEVC where
  picture_id : Nat
  pic_order_cnt : Nat
  flags : Nat
deriving Repr, DecidableEq

/-- `(VAPictureHEVC){ .picture_id = VA_INVALID_ID, .flags =
VA_PICTURE_HEVC_INVALID }` — remaining fields zeroed by the compound
literal. -/
def invalidVAPicture : VAPictureHEVC :=
  { picture_id := VA_INVALID_ID, pic_order_cnt := 0,
    flags := VA_PICTURE_HEVC_INVALID }

/-- The fields of `VAEncSequenceParameterBufferHEVC` read on the encode
path (`intra_idr_period` is initialized to 120 by
`InitializeSeqHeader`). -/
structure SeqParamsHEVC where
  intra_idr_period : Nat
  pic_width_in_luma_samples : Nat
  pic_height_in_luma_samples : Nat
deriving Repr, DecidableEq

/-- The fields of `VAEncPictureParameterBufferHEVC` written by
`UpdatePicHeader`; `reference_frames0` is `reference_frames[0]` (the
other 14 entries stay at their initialized invalid value). -/
structure PicParamsHEVC where
  decoded_curr_pic : VAPictureHEVC
  reference_frames0 : VAPictureHEVC
  nal_unit_type : Nat
  idr_pic_flag : Nat
  coding_type : Nat
deriving Repr, DecidableEq

/-- The fields of `VAEncSliceParameterBufferHEVC` written per frame;
`ref_pic_list0_0` is `ref_pic_list0[0]`. -/
structure SliceParamsHEVC where
  slice_type : Nat
  ref_pic_list0_0 : VAPictureHEVC
deriving Repr, DecidableEq

/-- The fields of `struct EncodeContext` (`src/encode.c`) that the
per-frame encode path touches.  `recon0`/`recon1` are
`recon_surface_ids[0..1]` (`LENGTH(recon_surface_ids) = 2`). -/
structure EncodeContext where
  width : Nat
  height : Nat
  va_packed_headers : Nat
  recon0 : Nat
  recon1 : Nat
  seq : SeqParamsHEVC
  pic : PicParamsHEVC
  slice : SliceParamsHEVC
  frame_counter : Nat
deriving Repr, DecidableEq

/-- `recon_surface_ids[i]` for an index already reduced mod 2. -/
def reconSurfaceId (s : EncodeContext) (i : Nat) : Nat :=
  if i = 0 then s.recon0 else s.recon1

/-- `bool idr = !(encode_context->frame_counter %
encode_context->seq.intra_idr_period);` (`src/encode.c` line 785). -/
def encodeFrameIsIdr (s : EncodeContext) : Bool :=
  s.frame_counter % s.seq.intra_idr_period == 0

/-- `UpdatePicHeader` (`src/encode.c` lines 729–760).  In the non-IDR
branch the C computes `(frame_counter - 1)` on a `size_t`; that branch
is reached only when `frame_counter % intra_idr_period ≠ 0`, hence
`frame_counter ≥ 1` and the truncated `Nat` subtraction coincides with
the C value. -/
def UpdatePicHeader (s : EncodeContext) (idr : Bool) : EncodeContext :=
  let s' := { s with
    pic.decoded_curr_pic :=
      { picture_id := reconSurfaceId s (s.frame_counter % 2),
        pic_order_cnt := s.frame_counter % s.seq.intra_idr_period,
        flags := 0 } }
  if idr then
    { s' with
      pic.reference_frames0 := invalidVAPicture,
      pic.nal_unit_type := IDR_W_RADL,
      pic.idr_pic_flag := 1,
      pic.coding_type := 1 }
  else
    { s' with
      pic.reference_frames0 :=
        { picture_id := reconSurfaceId s ((s.frame_counter - 1) % 2),
          pic_order_cnt := (s.frame_counter - 1) % s.seq.intra_idr_period,
          flags := 0 },
      pic.nal_unit_type := TRAIL_R,
      pic.idr_pic_flag := 0,
      pic.coding_type := 2 }

/-- The mapped `VACodedBufferSegment`: its `size`, the coded bytes at
`buf`, and whether `next` is NULL. -/
structure VACodedBufferSegment where
  size : Nat
  buf : List Nat
  next_null : Bool
deriving Repr, DecidableEq

/-- Oracle for one `EncodeContextEncodeFrame` call: success of each
fallible VA call in program order, the mapped coded segment, and the
`writev` events consumed by `DrainBuffers`. -/
structure EncodeEnv where
  uploadSeqOk : Bool
  uploadPackedSeqOk : Bool
  uploadPicOk : Bool
  uploadPackedSliceOk : Bool
  uploadSliceOk : Bool
  beginPictureOk : Bool
  renderPictureOk : Bool
  endPictureOk : Bool
  syncOk : Bool
  mapOk : Bool
  segment : VACodedBufferSegment
  writevEvents : List WritevEvent
deriving Repr, DecidableEq

/-- Outcome of `EncodeContextEncodeFrame`: `success` (returns `true`)
with the bytes `DrainBuffers` put on the wire, `failure` (returns
`false`), `aborted` (`abort()` on a non-NULL `segment->next`), or
`starved` (model artifact: the `writev` oracle ran out).  Each carries
the context state at that point (the C mutates it in place). -/
inductive EncodeResult where
  | success : EncodeContext → List Nat → EncodeResult
  | failure : EncodeContext → EncodeResult
  | aborted : EncodeContext → EncodeResult
  | starved : EncodeContext → EncodeResult
deriving Repr, DecidableEq

/-- The context state carried by an `EncodeResult`. -/
def EncodeResult.state : EncodeResult → EncodeContext
  | .success s _ => s
  | .failure s => s
  | .aborted s => s
  | .starved s => s

/-- Whether the call returned `true`. -/
def EncodeResult.isSuccess : EncodeResult → Bool
  | .success _ _ => true
  | _ => false

/-- The bytes written to the client fd (empty unless the drain
succeeded). -/
def EncodeResult.writtenBytes : EncodeResult → List Nat
  | .success _ w => w
  | _ => []

/-- The tail of `EncodeContextEncodeFrame` (`src/encode.c` lines
913–935): map the coded buffer (`abort()` if `segment->next` is
non-NULL is handled one stage up), build the iovec pair
`{&segment->size, sizeof(segment->size)}` and `{segment->buf,
segment->size}`, drain it to the client fd, and on success increment
`frame_counter` and return `true`. -/
def encodeFrameDrain (s2 : EncodeContext) (env : EncodeEnv) : EncodeResult :=
  match DrainBuffers env.writevEvents
      [le32 env.segment.size, env.segment.buf.take env.segment.size] [] with
  | .failure _ => .failure s2
  | .incomplete _ => .starved s2
  | .success w => .success { s2 with frame_counter := s2.frame_counter + 1 } w

/-- The middle of `EncodeContextEncodeFrame` (`src/encode.c` lines
848–923), entered with the picture and slice templates already patched:
optionally pack and upload the slice header, upload the slice parameter
buffer, begin/render/end picture, sync, map the coded buffer, `abort()`
if `segment->next` is non-NULL, then hand off to the drain stage. -/
def encodeFrameSubmit (s2 : EncodeContext) (env : EncodeEnv) : EncodeResult :=
  if (s2.va_packed_headers &&& VA_ENC_PACKED_HEADER_SLICE != 0)
      && !env.uploadPackedSliceOk then .failure s2
  else if !env.uploadSliceOk then .failure s2
  else if !env.beginPictureOk then .failure s2
  else if !env.renderPictureOk then .failure s2
  else if !env.endPictureOk then .failure s2
  else if !env.syncOk then .failure s2
  else if !env.mapOk then .failure s2
  else if !env.segment.next_null then .aborted s2
  else encodeFrameDrain s2 env

/-- The context after `UpdatePicHeader` and the slice-template patch
(`src/encode.c` lines 837–847): `slice.slice_type = idr ? I : P` and
`slice.ref_pic_list0[0] = pic.reference_frames[0]`. -/
def encodeFramePatchedState (s : EncodeContext) : EncodeContext :=
  let s1 := UpdatePicHeader s (encodeFrameIsIdr s)
  { s1 with
    slice.slice_type := if encodeFrameIsIdr s then SliceType.I else SliceType.P,
    slice.ref_pic_list0_0 := s1.pic.reference_frames0 }

/-- `EncodeContextEncodeFrame` (`src/encode.c` lines 780–943): compute
`idr`; on IDR upload the sequence buffer and (if
`VA_ENC_PACKED_HEADER_SEQUENCE` is advertised) the packed VPS+SPS+PPS;
`UpdatePicHeader`; upload the picture buffer; patch the slice template;
then submit and drain (the stage functions above). -/
def EncodeContextEncodeFrame (s : EncodeContext) (env : EncodeEnv) :
    EncodeResult :=
  let idr := encodeFrameIsIdr s
  if idr && !env.uploadSeqOk then .failure s
  else if idr && (s.va_packed_headers &&& VA_ENC_PACKED_HEADER_SEQUENCE != 0)
      && !env.uploadPackedSeqOk then .failure s
  else if !env.uploadPicOk then .failure (UpdatePicHeader s idr)
  else encodeFrameSubmit (encodeFramePatchedState s) env

lemma updatePicHeader_frame_counter (s : EncodeContext) (idr : Bool) :
    (UpdatePicHeader s idr).frame_counter = s.frame_counter := by
  cases idr <;> rfl

lemma updatePicHeader_seq (s : EncodeContext) (idr : Bool) :
    (UpdatePicHeader s idr).seq = s.seq := by
  cases idr <;> rfl

lemma encodeFrameDrain_master (s2 : EncodeContext) (env : EncodeEnv) :
    (match encodeFrameDrain s2 env with
      | .success s' _ => s' = { s2 with frame_counter := s2.frame_counter + 1 }
      | .failure s' => s' = s2
      | .aborted s' => s' = s2
      | .starved s' => s' = s2) := by
  unfold encodeFrameDrain
  cases hD : DrainBuffers env.writevEvents
      [le32 env.segment.size, env.segment.buf.take env.segment.size] [] <;>
    simp

lemma encodeFrameSubmit_master (s2 : EncodeContext) (env : EncodeEnv) :
    (match encodeFrameSubmit s2 env with
      | .success s' _ => s' = { s2 with frame_counter := s2.frame_counter + 1 }
      | .failure s' => s' = s2
      | .aborted s' => s' = s2
      | .starved s' => s' = s2) := by
  unfold encodeFrameSubmit
  split_ifs <;> first
    | simp
    | exact encodeFrameDrain_master s2 env

lemma encodeFramePatchedState_frame_counter (s : EncodeContext) :
    (encodeFramePatchedState s).frame_counter = s.frame_counter := by
  simp [encodeFramePatchedState, updatePicHeader_frame_counter]

lemma encodeFramePatchedState_seq (s : EncodeContext) :
    (encodeFramePatchedState s).seq = s.seq := by
  simp [encodeFramePatchedState, updatePicHeader_seq]

lemma encodeFramePatchedState_pic (s : EncodeContext) :
    (encodeFramePatchedState s).pic = (UpdatePicHeader s (encodeFrameIsIdr s)).pic := by
  simp [encodeFramePatchedState]

lemma encodeFrame_master (s : EncodeContext) (env : EncodeEnv) :
    (match EncodeContextEncodeFrame s env with
      | .success s' _ =>
        s' = { encodeFramePatchedState s with
               frame_counter := s.frame_counter + 1 }
      | .failure s' => s'.frame_counter = s.frame_counter ∧ s'.seq = s.seq
      | .aborted s' => s' = encodeFramePatchedState s
      | .starved s' => s' = encodeFramePatchedState s) := by
  unfold EncodeContextEncodeFrame
  dsimp only
  split_ifs with h1 h2 h3
  · simp
  · simp
  · simp [updatePicHeader_frame_counter, updatePicHeader_seq]
  · have hm := encodeFrameSubmit_master (encodeFramePatchedState s) env
    cases hres : encodeFrameSubmit (encodeFramePatchedState s) env with
    | success s' w =>
      rw [hres] at hm
      dsimp only at hm ⊢
      rw [hm, encodeFramePatchedState_frame_counter]
    | failure s' =>
      rw [hres] at hm
      dsimp only at hm ⊢
      rw [hm]
      exact ⟨encodeFramePatchedState_frame_counter s, encodeFramePatchedState_seq s⟩
    | aborted s' =>
      rw [hres] at hm
      dsimp only at hm ⊢
      exact hm
    | starved s' =>
      rw [hres] at hm
      dsimp only at hm ⊢
      exact hm

/-- C2: `frame_counter` advances by exactly one exactly when
`EncodeContextEncodeFrame` returns success; on every other exit (any
error return — buffer uploads, packed headers, begin/render/end
picture, sync, map, a failed client-fd write — as well as the `abort()`
exit on a non-NULL next segment and an exhausted `writev` oracle) it is
unchanged. -/
theorem encode_frame_counter_advance (s : EncodeContext) (env : EncodeEnv) :
    (EncodeContextEncodeFrame s env).state.frame_counter =
      if (EncodeContextEncodeFrame s env).isSuccess then s.frame_counter + 1
      else s.frame_counter := by
  have hm := encodeFrame_master s env
  cases hres : EncodeContextEncodeFrame s env with
  | success s' w =>
    rw [hres] at hm
    dsimp only at hm
    subst hm
    simp [EncodeResult.state, EncodeResult.isSuccess]
  | failure s' =>
    rw [hres] at hm
    dsimp only at hm
    simp [EncodeResult.state, EncodeResult.isSuccess, hm.1]
  | aborted s' =>
    rw [hres] at hm
    dsimp only at hm
    subst hm
    simp [EncodeResult.state, EncodeResult.isSuccess,
      encodeFramePatchedState_frame_counter]
  | starved s' =>
    rw [hres] at hm
    dsimp only at hm
    subst hm
    simp [EncodeResult.state, EncodeResult.isSuccess,
      encodeFramePatchedState_frame_counter]


lemma updatePicHeader_idr_fields (s : EncodeContext) :
    (UpdatePicHeader s true).pic.nal_unit_type = IDR_W_RADL ∧
    (UpdatePicHeader s true).pic.reference_frames0 = invalidVAPicture ∧
    (UpdatePicHeader s true).pic.idr_pic_flag = 1 ∧
    (UpdatePicHeader s true).pic.coding_type = 1 :=
  ⟨rfl, rfl, rfl, rfl⟩

lemma updatePicHeader_trail_fields (s : EncodeContext) :
    (UpdatePicHeader s false).pic.nal_unit_type = TRAIL_R ∧
    (UpdatePicHeader s false).pic.reference_frames0.picture_id =
      reconSurfaceId s ((s.frame_counter - 1) % 2) ∧
    (UpdatePicHeader s false).pic.reference_frames0.pic_order_cnt =
      (s.frame_counter - 1) % s.seq.intra_idr_period ∧
    (UpdatePicHeader s false).pic.idr_pic_flag = 0 ∧
    (UpdatePicHeader s false).pic.coding_type = 2 :=
  ⟨rfl, rfl, rfl, rfl, rfl⟩

/-- Run `EncodeContextEncodeFrame` once per environment, recording per
frame whether it was encoded as IDR; `none` as soon as a call does not
return success. -/
def encodeRunFlags : EncodeContext → List EncodeEnv → Option (List Bool)
  | _, [] => some []
  | s, env :: envs =>
    match EncodeContextEncodeFrame s env with
    | .success s' _ =>
      (encodeRunFlags s' envs).map (fun fl => encodeFrameIsIdr s :: fl)
    | _ => none

lemma encode_success_counter_seq (s : EncodeContext) (env : EncodeEnv)
    (s' : EncodeContext) (w : List Nat)
    (h : EncodeContextEncodeFrame s env = .success s' w) :
    s'.frame_counter = s.frame_counter + 1 ∧ s'.seq = s.seq ∧
    s'.pic = (UpdatePicHeader s (encodeFrameIsIdr s)).pic := by
  have hm := encodeFrame_master s env
  rw [h] at hm
  dsimp only at hm
  subst hm
  refine ⟨rfl, ?_, ?_⟩
  · exact encodeFramePatchedState_seq s
  · exact encodeFramePatchedState_pic s

lemma map_range_succ_shift (c p n : Nat) :
    (List.range (n + 1)).map (fun i => (c + i) % p == 0) =
      (c % p == 0) ::
        (List.range n).map (fun i => (c + 1 + i) % p == 0) := by
  rw [List.range_succ_eq_map, List.map_cons, List.map_map]
  congr 1
  apply List.map_congr_left
  intro a _
  simp only [Function.comp_apply]
  have harg : c + (a + 1) = c + 1 + a := by omega
  simp only [Nat.succ_eq_add_one, harg]

lemma encodeRunFlags_spec (envs : List EncodeEnv) (s : EncodeContext)
    (flags : List Bool) (h : encodeRunFlags s envs = some flags) :
    flags = (List.range envs.length).map
      (fun i => (s.frame_counter + i) % s.seq.intra_idr_period == 0) := by
  induction envs generalizing s flags with
  | nil =>
    unfold encodeRunFlags at h
    simp at h
    simp [h.symm]
  | cons env envs ih =>
    unfold encodeRunFlags at h
    cases hres : EncodeContextEncodeFrame s env with
    | success s' w =>
      rw [hres] at h
      dsimp only at h
      obtain ⟨fl, hfl, hflags⟩ := Option.map_eq_some'.mp h
      obtain ⟨hc, hseq, _⟩ := encode_success_counter_seq s env s' w hres
      have hrec := ih s' fl hfl
      rw [hc, hseq] at hrec
      subst hflags
      rw [hrec, List.length_cons, map_range_succ_shift]
      rfl
    | failure s' => rw [hres] at h; dsimp only at h; cases h
    | aborted s' => rw [hres] at h; dsimp only at h; cases h
    | starved s' => rw [hres] at h; dsimp only at h; cases h


lemma encodeFrameDrain_written (s2 : EncodeContext) (env : EncodeEnv)
    (s' : EncodeContext) (w : List Nat)
    (h : encodeFrameDrain s2 env = .success s' w) :
    DrainBuffers env.writevEvents
      [le32 env.segment.size, env.segment.buf.take env.segment.size] [] =
      .success w := by
  unfold encodeFrameDrain at h
  cases hD : DrainBuffers env.writevEvents
      [le32 env.segment.size, env.segment.buf.take env.segment.size] [] <;>
    rw [hD] at h <;> dsimp only at h
  · injection h with h1 h2
    rw [h2]
  · cases h
  · cases h

lemma encodeFrameSubmit_written (s2 : EncodeContext) (env : EncodeEnv)
    (s' : EncodeContext) (w : List Nat)
    (h : encodeFrameSubmit s2 env = .success s' w) :
    DrainBuffers env.writevEvents
      [le32 env.segment.size, env.segment.buf.take env.segment.size] [] =
      .success w := by
  unfold encodeFrameSubmit at h
  split_ifs at h
  all_goals first
    | cases h
    | exact encodeFrameDrain_written s2 env s' w h

lemma encodeFrame_written (s : EncodeContext) (env : EncodeEnv)
    (s' : EncodeContext) (w : List Nat)
    (h : EncodeContextEncodeFrame s env = .success s' w) :
    DrainBuffers env.writevEvents
      [le32 env.segment.size, env.segment.buf.take env.segment.size] [] =
      .success w := by
  unfold EncodeContextEncodeFrame at h
  dsimp only at h
  split_ifs at h
  all_goals first
    | cases h
    | exact encodeFrameSubmit_written (encodeFramePatchedState s) env s' w h

lemma drainBuffers_encode_record (seg : VACodedBufferSegment)
    (hbuf : seg.size ≤ seg.buf.length) :
    DrainBuffers [.wrote (4 + seg.size)]
      [le32 seg.size, seg.buf.take seg.size] [] =
      .success (le32 seg.size ++ seg.buf.take seg.size) := by
  have hlen :
      ([le32 seg.size, seg.buf.take seg.size] : List (List Nat)).flatten.length =
        4 + seg.size := by
    simp [le32]
    omega
  have := drainBuffers_single_full [le32 seg.size, seg.buf.take seg.size]
  rw [hlen] at this
  rw [this]
  simp

/-- Follows the spec's words (§4.6 step 7, §6): a wire record is an
8-byte little-endian header `{size:u32, type:u8, flags:u8, latency:u16}`
followed by `size` payload bytes.  Stated for comparison with what the
code actually writes. -/
def wireRecordSpec (size ty flags latency : Nat) (payload : List Nat) :
    List Nat :=
  le32 size ++ [ty % 256, flags % 256] ++ le16 latency ++ payload

lemma wireRecordSpec_length (size ty flags latency : Nat)
    (payload : List Nat) :
    (wireRecordSpec size ty flags latency payload).length =
      8 + payload.length := by
  simp [wireRecordSpec, le32, le16]
  omega

/-- A coded-buffer segment used to instantiate theorems: one coded byte
`0xAA`. -/
def demoSegment : VACodedBufferSegment :=
  { size := 1, buf := [170], next_null := true }

/-- An oracle where every driver call succeeds and the single `writev`
transfers all 5 bytes of the record. -/
def demoEncodeEnv : EncodeEnv :=
  { uploadSeqOk := true, uploadPackedSeqOk := true, uploadPicOk := true,
    uploadPackedSliceOk := true, uploadSliceOk := true,
    beginPictureOk := true, renderPictureOk := true, endPictureOk := true,
    syncOk := true, mapOk := true, segment := demoSegment,
    writevEvents := [.wrote 5] }

/-- A fresh encode context as `EncodeContextCreate` leaves it:
`frame_counter = 0`, `intra_idr_period = 120` (from
`InitializeSeqHeader`), picture and slice templates at their initialized
invalid values, no packed headers advertised. -/
def demoEncodeContext : EncodeContext :=
  { width := 16, height := 16, va_packed_headers := 0,
    recon0 := 100, recon1 := 101,
    seq := { intra_idr_period := 120, pic_width_in_luma_samples := 16,
             pic_height_in_luma_samples := 16 },
    pic := { decoded_curr_pic := invalidVAPicture,
             reference_frames0 := invalidVAPicture,
             nal_unit_type := 0, idr_pic_flag := 0, coding_type := 0 },
    slice := { slice_type := 0, ref_pic_list0_0 := invalidVAPicture },
    frame_counter := 0 }


/-- The context state after one successful demo encode. -/
def demoEncodeSuccessState : EncodeContext :=
  { encodeFramePatchedState demoEncodeContext with frame_counter := 1 }

/-- C3 counterexample: a successful encode at the concrete demo inputs
(coded segment of 1 byte `0xAA`) writes exactly `[1, 0, 0, 0, 170]` —
the 4-byte little-endian segment size followed by the payload, 5 bytes
in total — which is not a spec wire record: the spec's header alone is
8 bytes (size, type, flags, latency), so the record would be 9 bytes. -/
theorem encode_frame_write_lacks_wire_header :
    (EncodeContextEncodeFrame demoEncodeContext demoEncodeEnv).isSuccess =
      true ∧
    (EncodeContextEncodeFrame demoEncodeContext demoEncodeEnv).writtenBytes =
      [1, 0, 0, 0, 170] ∧
    (EncodeContextEncodeFrame demoEncodeContext
        demoEncodeEnv).writtenBytes.length = 5 ∧
    (wireRecordSpec demoSegment.size PROTO_TYPE_VIDEO PROTO_FLAG_KEYFRAME 0
        demoSegment.buf).length = 9 ∧
    (EncodeContextEncodeFrame demoEncodeContext demoEncodeEnv).writtenBytes ≠
      wireRecordSpec demoSegment.size PROTO_TYPE_VIDEO PROTO_FLAG_KEYFRAME 0
        demoSegment.buf := by
  decide

/-- C3 (amended): on every successful encode with a fully transferring
`writev`, the single record written to the client fd is the 4-byte
little-endian coded-segment size followed by the `segment.size` payload
bytes — `4 + size` bytes in total, with no type, flags or latency
fields. -/
theorem encode_frame_emits_size_prefixed_record (s : EncodeContext)
    (env : EncodeEnv) (s' : EncodeContext) (w : List Nat)
    (hbuf : env.segment.size ≤ env.segment.buf.length)
    (hfull : env.writevEvents = [.wrote (4 + env.segment.size)])
    (hsucc : EncodeContextEncodeFrame s env = .success s' w) :
    w = le32 env.segment.size ++ env.segment.buf.take env.segment.size ∧
    w.length = 4 + env.segment.size ∧
    (EncodeContextEncodeFrame s env).writtenBytes = w := by
  have hw := encodeFrame_written s env s' w hsucc
  rw [hfull, drainBuffers_encode_record env.segment hbuf] at hw
  injection hw with hw'
  refine ⟨hw'.symm, ?_, ?_⟩
  · rw [← hw']
    simp [le32]
    omega
  · rw [hsucc]
    rfl

theorem encode_frame_emits_size_prefixed_record_witness :
    ([1, 0, 0, 0, 170] : List Nat) =
      le32 demoEncodeEnv.segment.size ++
        demoEncodeEnv.segment.buf.take demoEncodeEnv.segment.size ∧
    ([1, 0, 0, 0, 170] : List Nat).length = 4 + demoEncodeEnv.segment.size ∧
    (EncodeContextEncodeFrame demoEncodeContext demoEncodeEnv).writtenBytes =
      [1, 0, 0, 0, 170] :=
  encode_frame_emits_size_prefixed_record demoEncodeContext demoEncodeEnv
    demoEncodeSuccessState [1, 0, 0, 0, 170]
    (by decide) (by decide) (by decide)


/-- 241 successive all-success oracles. -/
def demoEncodeEnvs : List EncodeEnv := List.replicate 241 demoEncodeEnv

/-- The IDR flags a fresh context produces over 241 successful frames. -/
def demoRunFlags : List Bool := (List.range 241).map (fun i => i % 120 == 0)

/-- C1: with `intra_idr_period = 120`, a frame is encoded as IDR iff
`frame_counter mod 120 == 0`; an IDR frame sets `pic.nal_unit_type` to
`IDR_W_RADL` (19) and clears `reference_frames[0]` to the invalid
picture, every other frame sets `TRAIL_R` (1) and references the
previous reconstruction surface `recon_surface_ids[(frame_counter-1) mod
2]`; a successful encode installs exactly the `UpdatePicHeader` result;
and over a 241-frame successful run from a fresh context the IDR frames
are exactly those at indices 0, 120 and 240. -/
theorem encode_idr_cadence
    (s s' : EncodeContext) (env : EncodeEnv) (w : List Nat)
    (r : EncodeContext) (envs : List EncodeEnv) (flags : List Bool)
    (h120 : s.seq.intra_idr_period = 120)
    (hsucc : EncodeContextEncodeFrame s env = .success s' w)
    (hr120 : r.seq.intra_idr_period = 120) (hr0 : r.frame_counter = 0)
    (hlen : envs.length = 241)
    (hrun : encodeRunFlags r envs = some flags) :
    (encodeFrameIsIdr s = true ↔ s.frame_counter % 120 = 0) ∧
    ((UpdatePicHeader s true).pic.nal_unit_type = IDR_W_RADL ∧
      IDR_W_RADL = 19 ∧
      (UpdatePicHeader s true).pic.reference_frames0 = invalidVAPicture) ∧
    ((UpdatePicHeader s false).pic.nal_unit_type = TRAIL_R ∧
      TRAIL_R = 1 ∧
      (UpdatePicHeader s false).pic.reference_frames0.picture_id =
        reconSurfaceId s ((s.frame_counter - 1) % 2)) ∧
    s'.pic = (UpdatePicHeader s (encodeFrameIsIdr s)).pic ∧
    (List.range 241).filter (fun i => flags.getD i false) = [0, 120, 240] := by
  refine ⟨?_, ?_, ?_, ?_, ?_⟩
  · simp [encodeFrameIsIdr, h120]
  · exact ⟨(updatePicHeader_idr_fields s).1, rfl,
      (updatePicHeader_idr_fields s).2.1⟩
  · exact ⟨(updatePicHeader_trail_fields s).1, rfl,
      (updatePicHeader_trail_fields s).2.1⟩
  · exact (encode_success_counter_seq s env s' w hsucc).2.2
  · have hflags := encodeRunFlags_spec envs r flags hrun
    rw [hr0, hr120, hlen] at hflags
    have hgd : ∀ i ∈ List.range 241,
        (flags.getD i false) = ((0 + i) % 120 == 0) := by
      intro i hi
      rw [List.mem_range] at hi
      rw [hflags, List.getD_eq_getElem?_getD, List.getElem?_map,
        List.getElem?_range hi]
      rfl
    rw [List.filter_congr hgd]
    decide

set_option maxRecDepth 40000 in
theorem encode_idr_cadence_witness :
    (encodeFrameIsIdr demoEncodeContext = true ↔
      demoEncodeContext.frame_counter % 120 = 0) ∧
    ((UpdatePicHeader demoEncodeContext true).pic.nal_unit_type =
        IDR_W_RADL ∧
      IDR_W_RADL = 19 ∧
      (UpdatePicHeader demoEncodeContext true).pic.reference_frames0 =
        invalidVAPicture) ∧
    ((UpdatePicHeader demoEncodeContext false).pic.nal_unit_type = TRAIL_R ∧
      TRAIL_R = 1 ∧
      (UpdatePicHeader demoEncodeContext false).pic.reference_frames0.picture_id =
        reconSurfaceId demoEncodeContext
          ((demoEncodeContext.frame_counter - 1) % 2)) ∧
    demoEncodeSuccessState.pic =
      (UpdatePicHeader demoEncodeContext
        (encodeFrameIsIdr demoEncodeContext)).pic ∧
    (List.range 241).filter (fun i => demoRunFlags.getD i false) =
      [0, 120, 240] :=
  encode_idr_cadence demoEncodeContext demoEncodeSuccessState demoEncodeEnv
    [1, 0, 0, 0, 170] demoEncodeContext demoEncodeEnvs demoRunFlags
    rfl (by decide) rfl rfl (by simp [demoEncodeEnvs, List.length_replicate]) (by decide)


/-! ## Input injector — `src/input.c`

`InputHandlerHandle` reassembles UHID records from the client byte
stream and writes each complete record to the UHID fd.  Record layout
constants come from the kernel ABI (`linux/uhid.h`, packed structs):
`UHID_DESTROY = 1`, `UHID_CREATE2 = 11`, `UHID_INPUT2 = 12`;
`offsetof(struct uhid_event, u.create2.rd_size) = 260` (2-byte field),
`offsetof(struct uhid_event, u.create2.rd_data) = 280`;
`offsetof(struct uhid_event, u.input2.size) = 4` (2-byte field),
`offsetof(struct uhid_event, u.input2.data) = 6`; `sizeof(event->type)
= 4`.  Struct fields are read from the buffer little-endian, as on the
targets the server runs on. -/

/-- `UHID_DESTROY` (linux/uhid.h). -/
def UHID_DESTROY : Nat := 1

/-- `UHID_CREATE2` (linux/uhid.h). -/
def UHID_CREATE2 : Nat := 11

/-- `UHID_INPUT2` (linux/uhid.h). -/
def UHID_INPUT2 : Nat := 12

/-- Modelled from the spec: `BufferAppendFrom` of `toolbox/buffer.c`
(not among the provided sources) appends the bytes read from the fd to
the growable buffer ("Append to buffer", spec §4.8). -/
def BufferAppendFrom (buffer chunk : List Nat) : List Nat := buffer ++ chunk

/-- Modelled from the spec: `BufferDiscard` of `toolbox/buffer.c` (not
among the provided sources) drops the consumed bytes from the front of
the buffer ("discard those bytes from the buffer", spec §4.8). -/
def BufferDiscard (buffer : List Nat) (size : Nat) : List Nat :=
  buffer.drop size

/-- Outcome of the record loop: `ok` — the C function returns `true`
with the listed records written (in order) and the given bytes left
buffered; `ub` — the C `switch` fell into `default:
__builtin_unreachable()`, i.e. undefined behavior, reached with the
listed state. -/
inductive InputOut where
  | ok : List (List Nat) → List Nat → InputOut
  | ub : List (List Nat) → List Nat → InputOut
deriving Repr, DecidableEq

/-- The `for (;;)` record loop of `InputHandlerHandle` (`src/input.c`
lines 86–136): while at least the 4-byte type is buffered, dispatch on
it (`UHID_CREATE2` needs `rd_size` and then `280 + rd_size` bytes,
`UHID_INPUT2` needs `size` and then `6 + size` bytes, `UHID_DESTROY` is
the bare 4-byte type, any other type is `__builtin_unreachable()`);
write the complete record to the UHID fd (assumed to transfer fully —
a short write returns `false` in C) and discard it from the buffer. -/
def inputLoop (buffer : List Nat) (writes : List (List Nat)) : InputOut :=
  if buffer.length < 4 then .ok writes buffer
  else
    let t := le32At buffer 0
    if t = UHID_CREATE2 then
      if buffer.length < 262 then .ok writes buffer
      else
        let size := 280 + le16At buffer 260
        if buffer.length < size then .ok writes buffer
        else inputLoop (BufferDiscard buffer size) (writes ++ [buffer.take size])
    else if t = UHID_INPUT2 then
      if buffer.length < 6 then .ok writes buffer
      else
        let size := 6 + le16At buffer 4
        if buffer.length < size then .ok writes buffer
        else inputLoop (BufferDiscard buffer size) (writes ++ [buffer.take size])
    else if t = UHID_DESTROY then
      inputLoop (BufferDiscard buffer 4) (writes ++ [buffer.take 4])
    else .ub writes buffer
termination_by buffer.length
decreasing_by
  all_goals simp [BufferDiscard]
  all_goals omega

/-- `InputHandlerHandle` (`src/input.c` lines 74–137): append the chunk
read from the client fd to the partial-message buffer, then run the
record loop. -/
def InputHandlerHandle (buffer chunk : List Nat) : InputOut :=
  inputLoop (BufferAppendFrom buffer chunk) []

/-- Feed successive client chunks through `InputHandlerHandle`,
accumulating the records written to the UHID fd across calls; `none` if
any call reaches undefined behavior. -/
def inputHandleChunks :
    List Nat → List (List Nat) → Option (List (List Nat) × List Nat)
  | buffer, [] => some ([], buffer)
  | buffer, c :: cs =>
    match InputHandlerHandle buffer c with
    | .ok w b => (inputHandleChunks b cs).map (fun r => (w ++ r.1, r.2))
    | .ub _ _ => none

/-- A well-formed UHID record as understood by `src/input.c`: its
leading 4-byte type is one of the three kinds and its length is exactly
the length the handler computes for that kind. -/
def WfUhidRecord (r : List Nat) : Prop :=
  (∀ b ∈ r, b < 256) ∧ 4 ≤ r.length ∧
    ((le32At r 0 = UHID_DESTROY ∧ r.length = 4) ∨
     (le32At r 0 = UHID_CREATE2 ∧ r.length = 280 + le16At r 260) ∨
     (le32At r 0 = UHID_INPUT2 ∧ r.length = 6 + le16At r 4))

instance (r : List Nat) : Decidable (WfUhidRecord r) := by
  unfold WfUhidRecord
  infer_instance

lemma byteAt_congr {p r : List Nat} (hpre : p <+: r) {i : Nat}
    (hi : i < p.length) : byteAt p i = byteAt r i := by
  obtain ⟨t, rfl⟩ := hpre
  unfold byteAt
  rw [List.getD_eq_getElem?_getD, List.getD_eq_getElem?_getD,
    List.getElem?_append_left hi]

lemma le32At_congr {p r : List Nat} (hpre : p <+: r)
    (h : 4 ≤ p.length) : le32At p 0 = le32At r 0 := by
  unfold le32At
  rw [byteAt_congr hpre (by omega), byteAt_congr hpre (by omega),
    byteAt_congr hpre (by omega), byteAt_congr hpre (by omega)]

lemma le16At_congr {p r : List Nat} (hpre : p <+: r) {i : Nat}
    (h : i + 2 ≤ p.length) : le16At p i = le16At r i := by
  unfold le16At
  rw [byteAt_congr hpre (by omega), byteAt_congr hpre (by omega)]


lemma inputLoop_partial (r p : List Nat) (ws : List (List Nat))
    (hwf : WfUhidRecord r) (hpre : p <+: r) (hlt : p.length < r.length) :
    inputLoop p ws = .ok ws p := by
  obtain ⟨hb, h4, hkind⟩ := hwf
  by_cases hp4 : p.length < 4
  · unfold inputLoop
    rw [if_pos hp4]
  · have ht : le32At p 0 = le32At r 0 := le32At_congr hpre (by omega)
    unfold inputLoop
    dsimp only
    rw [if_neg hp4, ht]
    rcases hkind with ⟨htype, hlen⟩ | ⟨htype, hlen⟩ | ⟨htype, hlen⟩
    · exact absurd (hlen ▸ hlt) hp4
    · rw [htype, if_pos rfl]
      by_cases hp262 : p.length < 262
      · rw [if_pos hp262]
      · rw [if_neg hp262]
        have h16 : le16At p 260 = le16At r 260 :=
          le16At_congr hpre (by omega)
        rw [h16, if_pos (by omega)]
    · rw [htype, if_neg (by decide), if_pos rfl]
      by_cases hp6 : p.length < 6
      · rw [if_pos hp6]
      · rw [if_neg hp6]
        have h16 : le16At p 4 = le16At r 4 := le16At_congr hpre (by omega)
        rw [h16, if_pos (by omega)]

lemma inputLoop_complete (r : List Nat) (ws : List (List Nat))
    (hwf : WfUhidRecord r) :
    inputLoop r ws = .ok (ws ++ [r]) [] := by
  obtain ⟨hb, h4, hkind⟩ := hwf
  unfold inputLoop
  dsimp only
  rw [if_neg (by omega)]
  rcases hkind with ⟨htype, hlen⟩ | ⟨htype, hlen⟩ | ⟨htype, hlen⟩
  · rw [htype, if_neg (by decide), if_neg (by decide), if_pos rfl]
    have hdrop : BufferDiscard r 4 = [] := by
      unfold BufferDiscard
      exact List.drop_eq_nil_of_le (by omega)
    have htake : r.take 4 = r := List.take_of_length_le (by omega)
    rw [hdrop, htake]
    unfold inputLoop
    rw [if_pos (by decide)]
  · rw [htype, if_pos rfl, if_neg (by omega), if_neg (by omega)]
    have hdrop : BufferDiscard r (280 + le16At r 260) = [] := by
      unfold BufferDiscard
      exact List.drop_eq_nil_of_le (by omega)
    have htake : r.take (280 + le16At r 260) = r :=
      List.take_of_length_le (by omega)
    rw [hdrop, htake]
    unfold inputLoop
    rw [if_pos (by decide)]
  · rw [htype, if_neg (by decide), if_pos rfl, if_neg (by omega),
      if_neg (by omega)]
    have hdrop : BufferDiscard r (6 + le16At r 4) = [] := by
      unfold BufferDiscard
      exact List.drop_eq_nil_of_le (by omega)
    have htake : r.take (6 + le16At r 4) = r :=
      List.take_of_length_le (by omega)
    rw [hdrop, htake]
    unfold inputLoop
    rw [if_pos (by decide)]


lemma flatten_ne_nil_of_ne {cs : List (List Nat)}
    (hne : ∀ c ∈ cs, c ≠ []) (hcs : cs ≠ []) : cs.flatten ≠ [] := by
  match cs with
  | [] => exact absurd rfl hcs
  | c :: cs =>
    have hc : c ≠ [] := hne c (by simp)
    simp only [List.flatten_cons]
    intro h
    exact hc (List.append_eq_nil.mp h).1

lemma inputHandleChunks_partial (cs : List (List Nat)) (p r : List Nat)
    (hwf : WfUhidRecord r) (hpre : (p ++ cs.flatten) <+: r)
    (hlt : (p ++ cs.flatten).length < r.length) :
    inputHandleChunks p cs = some ([], p ++ cs.flatten) := by
  induction cs generalizing p with
  | nil => simp [inputHandleChunks]
  | cons c cs ih =>
    have hpre' : ((p ++ c) ++ cs.flatten) <+: r := by
      simpa [List.append_assoc] using hpre
    have hlt' : ((p ++ c) ++ cs.flatten).length < r.length := by
      simpa [List.append_assoc] using hlt
    have hpc : (p ++ c) <+: r :=
      List.IsPrefix.trans ⟨cs.flatten, rfl⟩ hpre'
    have hpclt : (p ++ c).length < r.length := by
      have := hlt'
      simp only [List.length_append] at this ⊢
      omega
    have hstep : InputHandlerHandle p c = .ok [] (p ++ c) := by
      unfold InputHandlerHandle BufferAppendFrom
      exact inputLoop_partial r (p ++ c) [] hwf hpc hpclt
    unfold inputHandleChunks
    rw [hstep]
    dsimp only
    rw [ih (p ++ c) hpre' hlt']
    simp

lemma inputHandleChunks_complete (cs : List (List Nat)) (p r : List Nat)
    (hwf : WfUhidRecord r) (hne : ∀ c ∈ cs, c ≠ []) (hcs : cs ≠ [])
    (heq : p ++ cs.flatten = r) :
    inputHandleChunks p cs = some ([r], []) := by
  induction cs generalizing p with
  | nil => exact absurd rfl hcs
  | cons c cs ih =>
    by_cases hcs' : cs = []
    · subst hcs'
      have hpc : p ++ c = r := by simpa using heq
      have hstep : InputHandlerHandle p c = .ok [r] [] := by
        unfold InputHandlerHandle BufferAppendFrom
        rw [hpc]
        simpa using inputLoop_complete r [] hwf
      unfold inputHandleChunks
      rw [hstep]
      dsimp only
      unfold inputHandleChunks
      simp
    · have hne' : ∀ x ∈ cs, x ≠ [] := fun x hx => hne x (by simp [hx])
      have hflat : cs.flatten ≠ [] := flatten_ne_nil_of_ne hne' hcs'
      have heq' : (p ++ c) ++ cs.flatten = r := by
        simpa [List.append_assoc] using heq
      have hpre' : ((p ++ c) ++ cs.flatten) <+: r := ⟨[], by simpa using heq'⟩
      have hpc : (p ++ c) <+: r := List.IsPrefix.trans ⟨cs.flatten, rfl⟩ hpre'
      have hpclt : (p ++ c).length < r.length := by
        have hlen := congrArg List.length heq'
        simp only [List.length_append] at hlen ⊢
        have hpos : 0 < cs.flatten.length := List.length_pos.mpr hflat
        omega
      have hstep : InputHandlerHandle p c = .ok [] (p ++ c) := by
        unfold InputHandlerHandle BufferAppendFrom
        exact inputLoop_partial r (p ++ c) [] hwf hpc hpclt
      unfold inputHandleChunks
      rw [hstep]
      dsimp only
      rw [ih (p ++ c) hne' hcs' heq']
      simp

/-- C7: for every well-formed UHID record (`CREATE2`, `INPUT2` or
`DESTROY`) and every partition of its bytes into successive non-empty
client chunks, the handler writes exactly one buffer to the UHID fd —
the full record, of exactly the length its kind determines — emptying
the buffer; for every proper prefix of the chunk sequence it returns
success without writing anything, keeping the received bytes
buffered. -/
theorem input_handler_chunked_record (r : List Nat) (cs : List (List Nat))
    (hwf : WfUhidRecord r) (hne : ∀ c ∈ cs, c ≠ []) (hcs : cs ≠ [])
    (hjoin : cs.flatten = r) :
    inputHandleChunks [] cs = some ([r], []) ∧
    (∀ k, k < cs.length →
      inputHandleChunks [] (cs.take k) = some ([], (cs.take k).flatten)) := by
  constructor
  · exact inputHandleChunks_complete cs [] r hwf hne hcs (by simpa using hjoin)
  · intro k hk
    have hsplit : (cs.take k).flatten ++ (cs.drop k).flatten = r := by
      rw [← List.flatten_append, List.take_append_drop, hjoin]
    have hdrop_ne : (cs.drop k) ≠ [] := by
      intro h
      have := congrArg List.length h
      simp [List.length_drop] at this
      omega
    have hne'' : ∀ x ∈ cs.drop k, x ≠ [] :=
      fun x hx => hne x (List.mem_of_mem_drop hx)
    have hflat : (cs.drop k).flatten ≠ [] := flatten_ne_nil_of_ne hne'' hdrop_ne
    have hlt : ((cs.take k).flatten).length < r.length := by
      have : ((cs.take k).flatten).length + ((cs.drop k).flatten).length =
          r.length := by
        rw [← List.length_append, hsplit]
      have hpos : 0 < ((cs.drop k).flatten).length := List.length_pos.mpr hflat
      omega
    have := inputHandleChunks_partial (cs.take k) [] r hwf
      (by exact ⟨(cs.drop k).flatten, by simpa using hsplit⟩)
      (by simpa using hlt)
    simpa using this

theorem input_handler_chunked_record_witness :
    inputHandleChunks [] [[1, 0], [0, 0]] = some ([[1, 0, 0, 0]], []) ∧
    (∀ k, k < ([[1, 0], [0, 0]] : List (List Nat)).length →
      inputHandleChunks [] (([[1, 0], [0, 0]] : List (List Nat)).take k) =
        some ([], (([[1, 0], [0, 0]] : List (List Nat)).take k).flatten)) :=
  input_handler_chunked_record [1, 0, 0, 0] [[1, 0], [0, 0]]
    (by decide) (by decide) (by decide) (by decide)

/-- C8: the record loop of `InputHandlerHandle` reaches
`__builtin_unreachable()` — undefined behavior, not a defined
`ProtocolError` path — as soon as the buffered record's leading 4-byte
type is none of `UHID_CREATE2`, `UHID_INPUT2`, `UHID_DESTROY`; shown on
the concrete client bytes `[0, 0, 0, 0]` (type 0). -/
theorem input_handler_unknown_type_is_ub :
    InputHandlerHandle [] [0, 0, 0, 0] = .ub [] [0, 0, 0, 0] ∧
    (0 : Nat) ≠ UHID_CREATE2 ∧ (0 : Nat) ≠ UHID_INPUT2 ∧
    (0 : Nat) ≠ UHID_DESTROY := by
  refine ⟨?_, by decide, by decide, by decide⟩
  unfold InputHandlerHandle BufferAppendFrom
  unfold inputLoop
  simp [le32At, byteAt, UHID_CREATE2, UHID_INPUT2, UHID_DESTROY]


/-! ## Bitstream writer — `src/bitstream.c`

`struct Bitstream { void* data; size_t size; }`: `data` is the byte
buffer (modelled as a total function from byte index to stored value;
every store truncates to a byte with `% 256`, so only bits 0–7 are ever
significant) and `size` is the write position in bits.  Bit `i` of the
stream is bit `7 - i mod 8` of byte `i / 8` (MSB first). -/

/-- Stream bit `i` of the byte buffer. -/
def bitAt (data : Nat → Nat) (i : Nat) : Bool :=
  (data (i / 8)).testBit (7 - i % 8)

/-- `BitstreamAppend` (`src/bitstream.c` lines 20–34): clear the low
`vacant_bits = 8 - size%8` bits of the current byte (`*ptr &= ~0 <<
vacant_bits`; for a byte value that is `b >>> v <<< v`); if the `size`
bits to write fit, OR in `bits << (vacant_bits - size)` and advance;
otherwise OR in `bits >> (size - vacant_bits)`, advance to the byte
boundary and recurse on the remaining bits.  Each store is a `uint8_t`
write, hence the `% 256`. -/
def BitstreamAppend (data : Nat → Nat) (pos size bits : Nat) :
    (Nat → Nat) × Nat :=
  let idx := pos / 8
  let vacant := 8 - pos % 8
  let cleared := data idx >>> vacant <<< vacant
  if size ≤ vacant then
    (Function.update data idx ((cleared ||| bits <<< (vacant - size)) % 256),
     pos + size)
  else
    BitstreamAppend
      (Function.update data idx ((cleared ||| bits >>> (size - vacant)) % 256))
      (pos + vacant) (size - vacant) bits
termination_by size
decreasing_by omega

/-- The `while (dummy) { dummy >>= 1; size++; }` loop of
`BitstreamAppendUE`: the bit width of `dummy` added to `size`. -/
def bitWidthLoop (dummy size : Nat) : Nat :=
  if dummy = 0 then size else bitWidthLoop (dummy / 2) (size + 1)
termination_by dummy
decreasing_by omega

/-- `BitstreamAppendUE` (`src/bitstream.c` lines 36–45): Exp-Golomb
unsigned.  `uint32_t dummy = ++bits` (increment wraps at `2^32`); count
its bits into `size`; append `size - 1` zero bits, then the `size` bits
of the incremented value. -/
def BitstreamAppendUE (data : Nat → Nat) (pos : Nat) (bits : Nat) :
    (Nat → Nat) × Nat :=
  let b := (bits + 1) % 4294967296
  let size := bitWidthLoop b 0
  let r1 := BitstreamAppend data pos (size - 1) 0
  BitstreamAppend r1.1 r1.2 size b

lemma bitWidthLoop_acc (d : Nat) : ∀ s, bitWidthLoop d s = bitWidthLoop d 0 + s := by
  induction d using Nat.strong_induction_on with
  | _ d ih =>
    intro s
    by_cases hd : d = 0
    · subst hd
      unfold bitWidthLoop
      simp
    · unfold bitWidthLoop
      rw [if_neg hd, if_neg hd]
      rw [ih (d / 2) (by omega) (s + 1), ih (d / 2) (by omega) 1]
      omega

lemma lt_two_pow_bitWidthLoop (d : Nat) : d < 2 ^ bitWidthLoop d 0 := by
  induction d using Nat.strong_induction_on with
  | _ d ih =>
    by_cases hd : d = 0
    · subst hd
      unfold bitWidthLoop
      simp
    · unfold bitWidthLoop
      rw [if_neg hd, bitWidthLoop_acc]
      have := ih (d / 2) (by omega)
      rw [pow_succ]
      omega

lemma two_pow_le_bitWidthLoop (d : Nat) (hd : d ≠ 0) :
    2 ^ (bitWidthLoop d 0 - 1) ≤ d := by
  induction d using Nat.strong_induction_on with
  | _ d ih =>
    unfold bitWidthLoop
    rw [if_neg hd, bitWidthLoop_acc]
    by_cases h2 : d / 2 = 0
    · rw [h2]
      unfold bitWidthLoop
      simp
      omega
    · have := ih (d / 2) (by omega) h2
      have hpos : 1 ≤ bitWidthLoop (d / 2) 0 := by
        by_contra h
        have hz : bitWidthLoop (d / 2) 0 = 0 := by omega
        have := lt_two_pow_bitWidthLoop (d / 2)
        rw [hz] at this
        simp at this
        exact h2 this
      have hsub : bitWidthLoop (d / 2) 0 + 1 - 1 = (bitWidthLoop (d / 2) 0 - 1) + 1 := by
        omega
      rw [hsub, pow_succ]
      omega

lemma bitWidthLoop_pos (d : Nat) (hd : d ≠ 0) : 1 ≤ bitWidthLoop d 0 := by
  by_contra h
  have hz : bitWidthLoop d 0 = 0 := by omega
  have := lt_two_pow_bitWidthLoop d
  rw [hz] at this
  simp at this
  exact hd this


lemma testBit_byte_or_high (b orterm v bi : Nat)
    (hv : v ≤ bi) (hbi : bi < 8) (hor : orterm < 2 ^ v) :
    ((b >>> v <<< v ||| orterm) % 256).testBit bi = b.testBit bi := by
  rw [show (256 : Nat) = 2 ^ 8 from rfl, Nat.testBit_mod_two_pow]
  rw [Nat.testBit_or]
  have h1 : (b >>> v <<< v).testBit bi = b.testBit bi := by
    rw [Nat.testBit_shiftLeft, Nat.testBit_shiftRight]
    have hd : decide (v ≤ bi) = true := decide_eq_true hv
    rw [hd, Bool.true_and]
    congr 1
    omega
  have h2 : orterm.testBit bi = false := by
    apply Nat.testBit_lt_two_pow
    exact lt_of_lt_of_le hor (Nat.pow_le_pow_right (by norm_num) hv)
  rw [h1, h2, Bool.or_false, decide_eq_true hbi, Bool.true_and]

lemma testBit_byte_or_low (b orterm v bi : Nat) (hbi : bi < v) (hv : v ≤ 8) :
    ((b >>> v <<< v ||| orterm) % 256).testBit bi = orterm.testBit bi := by
  rw [show (256 : Nat) = 2 ^ 8 from rfl, Nat.testBit_mod_two_pow]
  have hbi8 : bi < 8 := lt_of_lt_of_le hbi hv
  rw [Nat.testBit_or]
  have h1 : (b >>> v <<< v).testBit bi = false := by
    rw [Nat.testBit_shiftLeft]
    rw [decide_eq_false (by omega), Bool.false_and]
  rw [h1, Bool.false_or, decide_eq_true hbi8, Bool.true_and]


lemma bitstreamAppend_spec (size : Nat) :
    ∀ (bits : Nat) (data : Nat → Nat) (pos : Nat),
    (bits < 2 ^ size ∨ pos % 8 = 0) →
    (BitstreamAppend data pos size bits).2 = pos + size ∧
    (∀ i, i < pos →
      bitAt (BitstreamAppend data pos size bits).1 i = bitAt data i) ∧
    (∀ j, j < size →
      bitAt (BitstreamAppend data pos size bits).1 (pos + j) =
        bits.testBit (size - 1 - j)) := by
  induction size using Nat.strong_induction_on with
  | _ size ih =>
    intro bits data pos H
    unfold BitstreamAppend
    dsimp only
    by_cases hle : size ≤ 8 - pos % 8
    · rw [if_pos hle]
      dsimp only
      refine ⟨rfl, ?_, ?_⟩
      · intro i hi
        unfold bitAt
        rw [Function.update_apply]
        by_cases hidx : i / 8 = pos / 8
        · rw [if_pos hidx, hidx]
          rcases H with hbits | haligned
          · apply testBit_byte_or_high
            · omega
            · omega
            · rw [Nat.shiftLeft_eq]
              calc bits * 2 ^ (8 - pos % 8 - size)
                  < 2 ^ size * 2 ^ (8 - pos % 8 - size) :=
                    mul_lt_mul_of_pos_right hbits (pow_pos (by norm_num) _)
                _ = 2 ^ (8 - pos % 8) := by
                    rw [← pow_add]
                    congr 1
                    omega
          · exact absurd hidx (by omega)
        · rw [if_neg hidx]
      · intro j hj
        unfold bitAt
        have h1 : (pos + j) / 8 = pos / 8 := by omega
        rw [Function.update_apply, if_pos h1]
        have h2 : 7 - (pos + j) % 8 = (8 - pos % 8) - 1 - j := by omega
        rw [h2]
        rw [testBit_byte_or_low _ _ _ _ (by omega) (by omega)]
        rw [Nat.testBit_shiftLeft]
        rw [decide_eq_true (show 8 - pos % 8 - size ≤ 8 - pos % 8 - 1 - j by omega),
          Bool.true_and]
        congr 1
        omega
    · rw [if_neg hle]
      have hv1 : 1 ≤ 8 - pos % 8 := by omega
      obtain ⟨ha, hb, hc⟩ :=
        ih (size - (8 - pos % 8)) (by omega) bits
          (Function.update data (pos / 8)
            ((data (pos / 8) >>> (8 - pos % 8) <<< (8 - pos % 8) |||
              bits >>> (size - (8 - pos % 8))) % 256))
          (pos + (8 - pos % 8)) (Or.inr (by omega))
      refine ⟨?_, ?_, ?_⟩
      · rw [ha]
        omega
      · intro i hi
        rw [hb i (by omega)]
        unfold bitAt
        rw [Function.update_apply]
        by_cases hidx : i / 8 = pos / 8
        · rw [if_pos hidx, hidx]
          rcases H with hbits | haligned
          · apply testBit_byte_or_high
            · omega
            · omega
            · rw [Nat.shiftRight_eq_div_pow]
              apply Nat.div_lt_of_lt_mul
              calc bits < 2 ^ size := hbits
                _ = 2 ^ (size - (8 - pos % 8)) * 2 ^ (8 - pos % 8) := by
                    rw [← pow_add]
                    congr 1
                    omega
          · exact absurd hidx (by omega)
        · rw [if_neg hidx]
      · intro j hj
        by_cases hjv : j < 8 - pos % 8
        · rw [hb (pos + j) (by omega)]
          unfold bitAt
          have h1 : (pos + j) / 8 = pos / 8 := by omega
          rw [Function.update_apply, if_pos h1]
          have h2 : 7 - (pos + j) % 8 = (8 - pos % 8) - 1 - j := by omega
          rw [h2]
          rw [testBit_byte_or_low _ _ _ _ (by omega) (by omega)]
          rw [Nat.testBit_shiftRight]
          congr 1
          omega
        · have h3 : pos + j = (pos + (8 - pos % 8)) + (j - (8 - pos % 8)) := by
            omega
          rw [h3, hc (j - (8 - pos % 8)) (by omega)]
          congr 1
          omega


/-- C9: for every `v < UINT32_MAX`, `BitstreamAppendUE v` advances the
bit position by exactly `2·bit_width(v+1) − 1`, writing
`bit_width(v+1) − 1` zero bits followed by the `bit_width(v+1)` bits of
`v+1` MSB first, and leaves every bit before the starting position
unchanged (`bitWidthLoop (v+1) 0` is the C bit-counting loop; the
surrounding inequalities pin it as the bit width of `v+1`). -/
theorem bitstream_append_ue_spec (v : Nat) (hv : v < 4294967295)
    (data : Nat → Nat) (pos : Nat) :
    (BitstreamAppendUE data pos v).2 =
      pos + (2 * bitWidthLoop (v + 1) 0 - 1) ∧
    v + 1 < 2 ^ bitWidthLoop (v + 1) 0 ∧
    2 ^ (bitWidthLoop (v + 1) 0 - 1) ≤ v + 1 ∧
    (∀ i, i < pos →
      bitAt (BitstreamAppendUE data pos v).1 i = bitAt data i) ∧
    (∀ j, j < bitWidthLoop (v + 1) 0 - 1 →
      bitAt (BitstreamAppendUE data pos v).1 (pos + j) = false) ∧
    (∀ j, j < bitWidthLoop (v + 1) 0 →
      bitAt (BitstreamAppendUE data pos v).1
          (pos + (bitWidthLoop (v + 1) 0 - 1) + j) =
        (v + 1).testBit (bitWidthLoop (v + 1) 0 - 1 - j)) := by
  have hmod : (v + 1) % 4294967296 = v + 1 := Nat.mod_eq_of_lt (by omega)
  have hx := lt_two_pow_bitWidthLoop (v + 1)
  have hge := two_pow_le_bitWidthLoop (v + 1) (by omega)
  have hkpos := bitWidthLoop_pos (v + 1) (by omega)
  have hueeq :
      BitstreamAppendUE data pos v =
        BitstreamAppend (BitstreamAppend data pos (bitWidthLoop (v + 1) 0 - 1) 0).1
          (BitstreamAppend data pos (bitWidthLoop (v + 1) 0 - 1) 0).2
          (bitWidthLoop (v + 1) 0) (v + 1) := by
    unfold BitstreamAppendUE
    rw [hmod]
  obtain ⟨ha1, hb1, hc1⟩ :=
    bitstreamAppend_spec (bitWidthLoop (v + 1) 0 - 1) 0 data pos
      (Or.inl (pow_pos (by norm_num) _))
  obtain ⟨ha2, hb2, hc2⟩ :=
    bitstreamAppend_spec (bitWidthLoop (v + 1) 0) (v + 1)
      (BitstreamAppend data pos (bitWidthLoop (v + 1) 0 - 1) 0).1
      (BitstreamAppend data pos (bitWidthLoop (v + 1) 0 - 1) 0).2
      (Or.inl hx)
  rw [hueeq]
  refine ⟨?_, hx, hge, ?_, ?_, ?_⟩
  · rw [ha2, ha1]
    omega
  · intro i hi
    rw [hb2 i (by omega), hb1 i hi]
  · intro j hj
    rw [hb2 (pos + j) (by omega), hc1 j hj, Nat.zero_testBit]
  · intro j hj
    have hpos2 : pos + (bitWidthLoop (v + 1) 0 - 1) + j =
        (BitstreamAppend data pos (bitWidthLoop (v + 1) 0 - 1) 0).2 + j := by
      rw [ha1]
    rw [hpos2, hc2 j hj]

theorem bitstream_append_ue_spec_witness :
    (BitstreamAppendUE (fun _ => 0) 0 2).2 =
      0 + (2 * bitWidthLoop (2 + 1) 0 - 1) ∧
    2 + 1 < 2 ^ bitWidthLoop (2 + 1) 0 ∧
    2 ^ (bitWidthLoop (2 + 1) 0 - 1) ≤ 2 + 1 ∧
    (∀ i, i < 0 →
      bitAt (BitstreamAppendUE (fun _ => 0) 0 2).1 i = bitAt (fun _ => 0) i) ∧
    (∀ j, j < bitWidthLoop (2 + 1) 0 - 1 →
      bitAt (BitstreamAppendUE (fun _ => 0) 0 2).1 (0 + j) = false) ∧
    (∀ j, j < bitWidthLoop (2 + 1) 0 →
      bitAt (BitstreamAppendUE (fun _ => 0) 0 2).1
          (0 + (bitWidthLoop (2 + 1) 0 - 1) + j) =
        (2 + 1).testBit (bitWidthLoop (2 + 1) 0 - 1 - j)) :=
  bitstream_append_ue_spec 2 (by norm_num) (fun _ => 0) 0

end Streamer
